import Mathlib

/-!
Verification of the Soul Foods pink-morsel sales pipeline.

Shallow embedding of the data-processing core of the repository:
  * process_sales_data.py  — ingestion, filtering, price parsing, merge
  * app.py                 — region filtering, daily aggregation, comparative stats
  * create_sales_visualization.py — daily aggregation and before/after means
  * analyze_price_changes.py — distinct-price sorting and change events

Modelling conventions:
  * pandas datetimes are modelled by their chronological integer key
    (pd.Timestamp is an int64 under the hood); `dateKey y m d` encodes a
    calendar date so that the order of keys is the calendar order.
  * currency amounts and means are rationals (ℚ); Python floats on the
    small decimal values involved behave like exact rationals here.
  * `Series.str.replace('$', '')` is modelled with the modern pandas
    default `regex=False`, i.e. literal replacement of every occurrence.
  * `float(s)` is modelled on the decimal fragment of Python's grammar:
    optional sign, digits with at most one dot, at least one digit.
    Exponents / inf / nan / surrounding whitespace do not occur in the data
    and are not modelled.
  * a Python exception that aborts the run is modelled by `Option.none`.
-/

/-- One row of a raw CSV source (columns product, price, quantity, date, region).
`price` is the raw currency-formatted string, `date` the chronological key. -/
structure RawRecord where
  product : String
  price : String
  quantity : Nat
  date : Nat
  region : String
deriving DecidableEq, Repr

/-- A normalized record `{sales, date, region}` as written by
process_sales_data.py (columns selected at line 42). -/
structure NormalizedRecord where
  sales : ℚ
  date : Nat
  region : String
deriving DecidableEq, Repr

/-- One aggregated day: date, summed sales, and the nominal price attached by
`get_price` (app.py line 36 / create_sales_visualization.py line 26). -/
structure DailySalesPoint where
  date : Nat
  totalSales : ℚ
  price : ℚ
deriving DecidableEq, Repr

/-- Chronological key of a calendar date: orders like the calendar for valid
dates (month ≤ 12, day ≤ 31). -/
def dateKey (y m d : Nat) : Nat := y * 10000 + m * 100 + d

/-- The hardcoded cutover `pd.to_datetime('2021-01-15')`
(app.py lines 31 and 208, create_sales_visualization.py lines 21 and 67). -/
def priceChangeDate : Nat := dateKey 2021 1 15

/-- app.py lines 30-34 / create_sales_visualization.py lines 20-24:
`3.0` strictly before the cutover date, `5.0` on or after it. -/
def get_price (date : Nat) : ℚ :=
  if date < priceChangeDate then 3 else 5

/- ### Price-string parsing (process_sales_data.py line 36,
     analyze_price_changes.py line 20) -/

/-- `Series.str.replace('$', '')` with the literal (regex=False) semantics:
every occurrence of `'$'` is removed, wherever it appears. -/
def stripDollars (s : String) : String :=
  String.mk (s.data.filter (fun c => c ≠ '$'))

/-- Digits of a numeral read left to right, as `float` does. -/
def natOfDigits (l : List Char) : Nat :=
  l.foldl (fun a c => 10 * a + (c.toNat - 48)) 0

/-- Split a character list at the first `'.'`; the remainder (if any) keeps
any further dots, which then fail the digit check (as `float("1.2.3")` does). -/
def splitDot : List Char → List Char × Option (List Char)
  | [] => ([], none)
  | c :: rest =>
    if c = '.' then ([], some rest)
    else
      let p := splitDot rest
      (c :: p.1, p.2)

/-- Unsigned decimal: `"3"`, `"3.00"`, `"3."`, `".5"` are accepted (as by
Python's `float`), anything with a non-digit or no digit at all is rejected. -/
def parseUnsigned (l : List Char) : Option ℚ :=
  let p := splitDot l
  match p.2 with
  | none =>
    if p.1 ≠ [] ∧ p.1.all (·.isDigit) then some (natOfDigits p.1) else none
  | some f =>
    if (p.1 ≠ [] ∨ f ≠ []) ∧ p.1.all (·.isDigit) ∧ f.all (·.isDigit) then
      some ((natOfDigits p.1 : ℚ) + (natOfDigits f : ℚ) / (10 : ℚ) ^ f.length)
    else none

/-- Python's `float` on the decimal fragment: optional sign then an unsigned
decimal.  `none` models the `ValueError` raised by `.astype(float)`. -/
def pyFloat (l : List Char) : Option ℚ :=
  match l with
  | '+' :: rest => parseUnsigned rest
  | '-' :: rest => (parseUnsigned rest).map (fun q => -q)
  | _ => parseUnsigned l

/-- The price conversion `s.str.replace('$', '').astype(float)` applied to one
cell (process_sales_data.py line 36, analyze_price_changes.py line 20). -/
def parsePrice (s : String) : Option ℚ :=
  pyFloat (stripDollars s).data

/-- Comparison definition following the SPEC's words for price parsing: strip
at most a single leading `'$'`, then the remainder must parse as a
non-negative number (a `'$'` elsewhere is not removed, so it fails). -/
def specParsePrice (s : String) : Option ℚ :=
  let r := match s.data with
    | '$' :: rest => rest
    | l => l
  match pyFloat r with
  | some q => if 0 ≤ q then some q else none
  | none => none

/- ### Ingestion (process_sales_data.py) -/

/-- The row filter `df['product'].str.lower() == 'pink morsel'`
(process_sales_data.py line 29, analyze_price_changes.py line 17). -/
def keepRow (r : RawRecord) : Bool :=
  r.product.toLower = "pink morsel"

/-- Normalization of one retained row: parse the price, compute
`sales = price * quantity`, keep `{sales, date, region}`
(process_sales_data.py lines 36-42). `none` models the `ValueError`
aborting the run on a malformed price. -/
def normalizeRow (r : RawRecord) : Option NormalizedRecord :=
  (parsePrice r.price).map (fun p => ⟨p * (r.quantity : ℚ), r.date, r.region⟩)

/-- Column-wise price conversion and sales computation over the retained rows
of one file; any malformed price aborts (`astype(float)` raises). -/
def parseAll : List RawRecord → Option (List NormalizedRecord)
  | [] => some []
  | r :: rs =>
    match normalizeRow r, parseAll rs with
    | some n, some rest => some (n :: rest)
    | _, _ => none

/-- Processing of one CSV file (process_sales_data.py lines 26-44):
filter to pink morsels; a file with zero matches is skipped with a warning
(`some none`); otherwise normalize every retained row (`some (some recs)`),
a malformed price aborting the whole run (`none`). -/
def processFile (rows : List RawRecord) : Option (Option (List NormalizedRecord)) :=
  let pink := rows.filter keepRow
  if pink.isEmpty then some none
  else
    match parseAll pink with
    | some recs => some (some recs)
    | none => none

/-- Sequential processing of the source files, aborting at the first
malformed price (the script processes files one by one). -/
def processFiles : List (List RawRecord) → Option (List (Option (List NormalizedRecord)))
  | [] => some []
  | f :: fs =>
    match processFile f, processFiles fs with
    | some r, some rest => some (r :: rest)
    | _, _ => none

/-- Insertion of a record into a date-sorted list (used to model the final
`sort_values('date')`; the tie order of pandas' default quicksort is not
relied upon by any theorem below). -/
def insertByDate (r : NormalizedRecord) : List NormalizedRecord → List NormalizedRecord
  | [] => [r]
  | s :: ss => if r.date ≤ s.date then r :: s :: ss else s :: insertByDate r ss

/-- Sort the merged records ascending by date (process_sales_data.py line 53). -/
def sortByDate : List NormalizedRecord → List NormalizedRecord
  | [] => []
  | r :: rs => insertByDate r (sortByDate rs)

/-- process_sales_data.py lines 22-73: process every file, concatenate the
non-skipped results, sort by date and return them (`some (some _)`, the CSV
is also written); when every file was skipped return `None` and write nothing
(`some none`); `none` is an aborting `ValueError`. -/
def process_sales_data (files : List (List RawRecord)) : Option (Option (List NormalizedRecord)) :=
  match processFiles files with
  | none => none
  | some parts =>
    let dfs := parts.filterMap id
    if dfs.isEmpty then some none
    else some (some (sortByDate dfs.flatten))

/- ### Sorted deduplication (models `groupby('date')` sorted keys and
     `sorted(series.unique())`) -/

/-- Insert a key into a strictly-sorted list, dropping it if present. -/
def insertSD {α : Type} [LinearOrder α] (x : α) : List α → List α
  | [] => [x]
  | y :: ys =>
    if x < y then x :: y :: ys
    else if x = y then y :: ys
    else y :: insertSD x ys

/-- The strictly-sorted list of distinct keys of a list: the group keys of a
pandas `groupby` (which sorts them), and `sorted(series.unique())`. -/
def sortedDedup {α : Type} [LinearOrder α] : List α → List α
  | [] => []
  | x :: xs => insertSD x (sortedDedup xs)

/- ### Daily aggregation and region filter (app.py, create_sales_visualization.py) -/

/-- `df[df['region'] == selected_region]` when the filter is not the sentinel
`'all'` (app.py lines 22-23 and 202-205). -/
def filterRegion (region : String) (recs : List NormalizedRecord) : List NormalizedRecord :=
  if region ≠ "all" then recs.filter (fun r => r.region = region) else recs

/-- `df.groupby('date')['sales'].sum()` followed by `sort_values('date')` and
the `get_price` column (app.py lines 26-36, create_sales_visualization.py
lines 16-26): one point per distinct date in ascending order (groupby sorts
its keys; the extra sort is the identity on the already-sorted frame), whose
total is the sum of `sales` over the records of that date. -/
def daily_sales (recs : List NormalizedRecord) : List DailySalesPoint :=
  (sortedDedup (recs.map (fun r => r.date))).map
    (fun d => ⟨d, ((recs.filter (fun r => r.date = d)).map (fun r => r.sales)).sum, get_price d⟩)

/- ### Comparative statistics -/

/-- `df_filtered[df_filtered['date'] < price_change_date]` (app.py line 209):
the RECORD-level before partition. -/
def before_data (recs : List NormalizedRecord) : List NormalizedRecord :=
  recs.filter (fun r => r.date < priceChangeDate)

/-- `df_filtered[df_filtered['date'] >= price_change_date]` (app.py line 210). -/
def after_data (recs : List NormalizedRecord) : List NormalizedRecord :=
  recs.filter (fun r => priceChangeDate ≤ r.date)

/-- Arithmetic mean of a series, `Series.mean()` on a nonempty series. -/
def mean (xs : List ℚ) : ℚ := xs.sum / (xs.length : ℚ)

/-- app.py line 212: `before_data['sales'].mean() if len(before_data) > 0 else 0`. -/
def before_avg (recs : List NormalizedRecord) : ℚ :=
  if 0 < (before_data recs).length then mean ((before_data recs).map (fun r => r.sales)) else 0

/-- app.py line 213: the after-partition mean, `0` when the partition is empty. -/
def after_avg (recs : List NormalizedRecord) : ℚ :=
  if 0 < (after_data recs).length then mean ((after_data recs).map (fun r => r.sales)) else 0

/-- app.py line 215:
`((after_avg - before_avg) / before_avg * 100) if before_avg > 0 else 0`. -/
def sales_change (recs : List NormalizedRecord) : ℚ :=
  if 0 < before_avg recs then (after_avg recs - before_avg recs) / before_avg recs * 100 else 0

/-- The three comparative numbers computed by `update_chart`. -/
structure Stats where
  beforeAvg : ℚ
  afterAvg : ℚ
  salesChange : ℚ
deriving DecidableEq, Repr

/-- app.py lines 198-215: region filter, record-level partitions, guarded
means and guarded percent change. -/
def update_chart_stats (region : String) (recs : List NormalizedRecord) : Stats :=
  let fil := filterRegion region recs
  ⟨before_avg fil, after_avg fil, sales_change fil⟩

/-- create_sales_visualization.py line 132: the before-mean taken over the
AGGREGATED daily points (`daily_sales[daily_sales['date'] < d]['sales'].mean()`). -/
def viz_before_mean (recs : List NormalizedRecord) : ℚ :=
  mean (((daily_sales recs).filter (fun p => p.date < priceChangeDate)).map
    (fun p => p.totalSales))

/-- create_sales_visualization.py line 133: the after-mean over daily points. -/
def viz_after_mean (recs : List NormalizedRecord) : ℚ :=
  mean (((daily_sales recs).filter (fun p => priceChangeDate ≤ p.date)).map
    (fun p => p.totalSales))

/-- Comparison definition following the SPEC's words (§4.3): the mean of
`totalSales` over the DailySalesPoints strictly before the cutover. -/
def specBeforeMean (pts : List DailySalesPoint) : ℚ :=
  mean ((pts.filter (fun p => p.date < priceChangeDate)).map (fun p => p.totalSales))

/-- Comparison definition following the SPEC's words (§4.3): the mean of
`totalSales` over the DailySalesPoints on or after the cutover. -/
def specAfterMean (pts : List DailySalesPoint) : ℚ :=
  mean ((pts.filter (fun p => priceChangeDate ≤ p.date)).map (fun p => p.totalSales))

/-- Comparison definition following the SPEC's words (§4.3): the percent
change fails (`none`, a `DivisionByZeroError`) when the before-mean is zero. -/
def specPercentChange (beforeMean afterMean : ℚ) : Option ℚ :=
  if beforeMean = 0 then none
  else some ((afterMean - beforeMean) / beforeMean * 100)

/- ### Price-change detection (analyze_price_changes.py lines 53-62) -/

/-- One detected transition between adjacent distinct prices. -/
structure PriceChangeEvent where
  fromPrice : ℚ
  toPrice : ℚ
  percentIncrease : ℚ
deriving DecidableEq, Repr

/-- The loop body of analyze_price_changes.py lines 56-60: one event per
adjacent pair of the (sorted, distinct) price list, with
`increase = ((new - old) / old) * 100`. -/
def adjacentEvents : List ℚ → List PriceChangeEvent
  | p :: q :: rest => ⟨p, q, (q - p) / p * 100⟩ :: adjacentEvents (q :: rest)
  | _ => []

/-- Outcome of the price-change analysis: the detected increases, or the
"No price changes detected - price remained at $p" message, or the
`IndexError` of `unique_prices[0]` on an empty price list. -/
inductive PriceAnalysis where
  | increases (evs : List PriceChangeEvent)
  | noChange (p : ℚ)
  | indexError
deriving DecidableEq, Repr

/-- analyze_price_changes.py lines 53-62:
`unique_prices = sorted(combined['price'].unique())`; with more than one
distinct price report the adjacent increases, otherwise report no change at
`unique_prices[0]`. -/
def analyzePrices (prices : List ℚ) : PriceAnalysis :=
  let u := sortedDedup prices
  if 1 < u.length then .increases (adjacentEvents u)
  else
    match u with
    | [p] => .noChange p
    | _ => .indexError

/- ### Lemmas about sorted deduplication -/

theorem mem_insertSD {α : Type} [LinearOrder α] (x a : α) (l : List α) :
    a ∈ insertSD x l ↔ a = x ∨ a ∈ l := by
  induction l with
  | nil => simp [insertSD]
  | cons y ys ih =>
    by_cases h1 : x < y
    · simp [insertSD, h1]
    · by_cases h2 : x = y
      · subst h2
        have he : insertSD x (x :: ys) = x :: ys := by simp [insertSD, h1]
        rw [he]
        simp only [List.mem_cons]
        tauto
      · simp only [insertSD, if_neg h1, if_neg h2, List.mem_cons, ih]
        tauto

theorem pairwise_insertSD {α : Type} [LinearOrder α] (x : α) (l : List α)
    (h : l.Pairwise (· < ·)) : (insertSD x l).Pairwise (· < ·) := by
  induction l with
  | nil => simp [insertSD]
  | cons y ys ih =>
    rw [List.pairwise_cons] at h
    obtain ⟨hy, hys⟩ := h
    by_cases h1 : x < y
    · simp only [insertSD, if_pos h1]
      refine List.Pairwise.cons ?_ (List.Pairwise.cons hy hys)
      intro b hb
      rcases List.mem_cons.mp hb with rfl | hb
      · exact h1
      · exact lt_trans h1 (hy b hb)
    · by_cases h2 : x = y
      · subst h2
        simp only [insertSD, if_neg h1, if_pos rfl]
        exact List.Pairwise.cons hy hys
      · simp only [insertSD, if_neg h1, if_neg h2]
        refine List.Pairwise.cons ?_ (ih hys)
        intro b hb
        rcases (mem_insertSD x b ys).mp hb with rfl | hb
        · exact lt_of_le_of_ne (not_lt.mp h1) (Ne.symm h2)
        · exact hy b hb

theorem pairwise_sortedDedup {α : Type} [LinearOrder α] (l : List α) :
    (sortedDedup l).Pairwise (· < ·) := by
  induction l with
  | nil => simp [sortedDedup]
  | cons x xs ih => exact pairwise_insertSD x _ ih

theorem mem_sortedDedup {α : Type} [LinearOrder α] (a : α) (l : List α) :
    a ∈ sortedDedup l ↔ a ∈ l := by
  induction l with
  | nil => simp [sortedDedup]
  | cons x xs ih => simp [sortedDedup, mem_insertSD, ih]

/- ### Lemmas about the price-change events -/

theorem adjacentEvents_spec : ∀ l : List ℚ, ∀ ev ∈ adjacentEvents l,
    ev.percentIncrease = (ev.toPrice - ev.fromPrice) / ev.fromPrice * 100
    ∧ (l.Pairwise (· < ·) → (∀ p ∈ l, 0 < p) → 0 ≤ ev.percentIncrease)
  | [] => by simp [adjacentEvents]
  | [p] => by simp [adjacentEvents]
  | p :: q :: rest => by
    intro ev hev
    rcases List.mem_cons.mp hev with rfl | h
    · refine ⟨rfl, fun hpw hpos => ?_⟩
      have hpq : p < q := (List.pairwise_cons.mp hpw).1 q (by simp)
      have hp : 0 < p := hpos p (by simp)
      have hd : 0 ≤ (q - p) / p := div_nonneg (by linarith) (le_of_lt hp)
      have : (0 : ℚ) ≤ (q - p) / p * 100 := mul_nonneg hd (by norm_num)
      simpa using this
    · have ih := adjacentEvents_spec (q :: rest) ev h
      refine ⟨ih.1, fun hpw hpos => ih.2 (List.pairwise_cons.mp hpw).2 ?_⟩
      intro x hx
      exact hpos x (List.mem_cons_of_mem p hx)

/- ### Lemmas about per-file processing -/

theorem processFile_skip_iff (rows : List RawRecord) :
    processFile rows = some none ↔ (rows.filter keepRow).isEmpty = true := by
  by_cases h : (rows.filter keepRow).isEmpty
  · simp [processFile, h]
  · simp only [processFile, h, if_neg]
    cases hp : parseAll (rows.filter keepRow) <;> simp [h, hp]

theorem processFile_crash_not_skipped (rows : List RawRecord)
    (h : processFile rows = none) : (rows.filter keepRow).isEmpty = false := by
  by_cases he : (rows.filter keepRow).isEmpty
  · simp [processFile, he] at h
  · simpa using he

theorem processFile_contrib_not_skipped (rows : List RawRecord)
    (recs : List NormalizedRecord) (h : processFile rows = some (some recs)) :
    (rows.filter keepRow).isEmpty = false := by
  by_cases he : (rows.filter keepRow).isEmpty
  · simp [processFile, he] at h
  · simpa using he

theorem processFiles_filter_eq (files : List (List RawRecord)) :
    processFiles (files.filter (fun f => !(f.filter keepRow).isEmpty))
      = (processFiles files).map (fun parts => (parts.filterMap id).map some) := by
  induction files with
  | nil => rfl
  | cons f fs ih =>
    by_cases hf : (f.filter keepRow).isEmpty
    · have hpf : processFile f = some none := (processFile_skip_iff f).mpr hf
      have hdrop : List.filter (fun f => !(f.filter keepRow).isEmpty) (f :: fs)
          = List.filter (fun f => !(f.filter keepRow).isEmpty) fs := by
        simp [List.filter_cons, hf]
      rw [hdrop, ih]
      cases hfs : processFiles fs with
      | none => simp [processFiles, hpf, hfs]
      | some rest => simp [processFiles, hpf, hfs]
    · have hkeep : List.filter (fun f => !(f.filter keepRow).isEmpty) (f :: fs)
          = f :: List.filter (fun f => !(f.filter keepRow).isEmpty) fs := by
        simp [List.filter_cons, hf]
      rw [hkeep]
      cases hpf : processFile f with
      | none => simp [processFiles, hpf]
      | some r =>
        cases hfs : processFiles fs with
        | none =>
          have hres : processFiles (List.filter (fun f => !(f.filter keepRow).isEmpty) fs)
              = none := by rw [ih, hfs]; rfl
          simp [processFiles, hpf, hfs, hres]
        | some rest =>
          have hres : processFiles (List.filter (fun f => !(f.filter keepRow).isEmpty) fs)
              = some ((rest.filterMap id).map some) := by rw [ih, hfs]; rfl
          match r, hpf with
          | none, hpf =>
            exact absurd ((processFile_skip_iff f).mp hpf) (by simp [hf])
          | some recs, hpf =>
            simp [processFiles, hpf, hfs, hres]

theorem parseAll_forall2 : ∀ (l : List RawRecord) (recs : List NormalizedRecord),
    parseAll l = some recs →
    List.Forall₂ (fun (r : RawRecord) (n : NormalizedRecord) =>
      ∃ p, parsePrice r.price = some p
        ∧ n = ⟨p * (r.quantity : ℚ), r.date, r.region⟩) l recs := by
  intro l
  induction l with
  | nil =>
    intro recs h
    simp only [parseAll, Option.some_inj] at h
    subst h
    exact List.Forall₂.nil
  | cons r rs ih =>
    intro recs h
    simp only [parseAll] at h
    cases hn : normalizeRow r with
    | none => rw [hn] at h; cases h
    | some n =>
      cases hp : parseAll rs with
      | none => rw [hn, hp] at h; cases h
      | some rest =>
        rw [hn, hp] at h
        injection h with h'
        subst h'
        refine List.Forall₂.cons ?_ (ih rest hp)
        rw [normalizeRow] at hn
        obtain ⟨p, hpe, hfp⟩ := Option.map_eq_some'.mp hn
        exact ⟨p, hpe, hfp.symm⟩

theorem process_sales_data_filter (files : List (List RawRecord)) :
    process_sales_data files
      = process_sales_data (files.filter (fun f => !(f.filter keepRow).isEmpty)) := by
  unfold process_sales_data
  rw [processFiles_filter_eq]
  cases h : processFiles files with
  | none => rfl
  | some parts =>
    simp only [Option.map_some']
    have hfm : ((parts.filterMap id).map some).filterMap id = parts.filterMap id := by
      rw [List.filterMap_map]
      simp
    rw [hfm]

/- ### Claim theorems -/

/-- C5: the price attached to every date is the fixed data-independent step
function over the hardcoded cutover 2021-01-15: `3.00` strictly before it and
`5.00` on or after it. -/
theorem c5_price_step (d : Nat) :
    (d < priceChangeDate → get_price d = 3) ∧ (priceChangeDate ≤ d → get_price d = 5) := by
  constructor
  · intro h
    simp [get_price, h]
  · intro h
    simp [get_price, not_lt.mpr h]

/-- C5 witness: the step function evaluated on 2021-01-10 and on the cutover
day itself. -/
theorem c5_price_step_witness :
    (dateKey 2021 1 10 < priceChangeDate ∧ get_price (dateKey 2021 1 10) = 3)
    ∧ (priceChangeDate ≤ dateKey 2021 1 15 ∧ get_price (dateKey 2021 1 15) = 5) :=
  ⟨⟨by decide, (c5_price_step (dateKey 2021 1 10)).1 (by decide)⟩,
   ⟨by decide, (c5_price_step (dateKey 2021 1 15)).2 (by decide)⟩⟩

/-- C6: the daily aggregation has strictly increasing dates (hence one point
per date), its dates are exactly the distinct dates present in the filtered
records (no gap- or zero-filling), and each point's total is the sum of
`sales` over the records of its date. -/
theorem c6_daily_aggregation (recs : List NormalizedRecord) :
    ((daily_sales recs).map (fun p => p.date)).Pairwise (· < ·)
    ∧ (∀ d : Nat,
        (d ∈ (daily_sales recs).map (fun p => p.date)) ↔ d ∈ recs.map (fun r => r.date))
    ∧ (∀ p ∈ daily_sales recs,
        p.totalSales = ((recs.filter (fun r => r.date = p.date)).map (fun r => r.sales)).sum
        ∧ p.price = get_price p.date) := by
  have hmap : (daily_sales recs).map (fun p => p.date)
      = sortedDedup (recs.map (fun r => r.date)) := by
    rw [daily_sales, List.map_map]
    rw [show ((fun p : DailySalesPoint => p.date)
        ∘ fun d => (⟨d, ((recs.filter (fun r => r.date = d)).map (fun r => r.sales)).sum,
            get_price d⟩ : DailySalesPoint)) = id from rfl]
    exact List.map_id _
  refine ⟨?_, ?_, ?_⟩
  · rw [hmap]
    exact pairwise_sortedDedup _
  · intro d
    rw [hmap]
    exact mem_sortedDedup d _
  · intro p hp
    simp only [daily_sales, List.mem_map] at hp
    obtain ⟨d, hd, rfl⟩ := hp
    exact ⟨rfl, rfl⟩

set_option maxRecDepth 10000 in
/-- C6 witness: two records on 2021-01-10 aggregate to the single point
`{date: 2021-01-10, totalSales: 150, price: 3}`. -/
theorem c6_daily_aggregation_witness :
    ((⟨dateKey 2021 1 10, 150, 3⟩ : DailySalesPoint)
        ∈ daily_sales [⟨100, dateKey 2021 1 10, "north"⟩, ⟨50, dateKey 2021 1 10, "north"⟩])
    ∧ (⟨dateKey 2021 1 10, 150, 3⟩ : DailySalesPoint).totalSales
        = (([(⟨100, dateKey 2021 1 10, "north"⟩ : NormalizedRecord),
             ⟨50, dateKey 2021 1 10, "north"⟩].filter
              (fun r => r.date = dateKey 2021 1 10)).map (fun r => r.sales)).sum
    ∧ (dateKey 2021 1 10
        ∈ (daily_sales [⟨100, dateKey 2021 1 10, "north"⟩,
            ⟨50, dateKey 2021 1 10, "north"⟩]).map (fun p => p.date)) := by
  have heq : daily_sales [⟨100, dateKey 2021 1 10, "north"⟩, ⟨50, dateKey 2021 1 10, "north"⟩]
      = [⟨dateKey 2021 1 10, 150, 3⟩] := by
    with_unfolding_all rfl
  have hmem : (⟨dateKey 2021 1 10, 150, 3⟩ : DailySalesPoint)
      ∈ daily_sales [⟨100, dateKey 2021 1 10, "north"⟩, ⟨50, dateKey 2021 1 10, "north"⟩] := by
    rw [heq]
    exact List.mem_singleton_self _
  refine ⟨hmem, ((c6_daily_aggregation _).2.2 _ hmem).1, ?_⟩
  refine ((c6_daily_aggregation _).2.1 _).mpr ?_
  simp

/-- C7: a row is retained iff its lower-cased product equals "pink morsel"
exactly; every retained row maps to a NormalizedRecord with
`sales = parsedPrice * quantity` projected to `{sales, date, region}`;
and Scenario A: `{product:"Pink Morsel", price:"$3.00", quantity:100,
date:2021-01-10, region:"north"}` yields `{sales:300.0, date:2021-01-10,
region:"north"}`. -/
theorem c7_filter_normalize :
    (∀ r : RawRecord, keepRow r = true ↔ r.product.toLower = "pink morsel")
    ∧ (∀ (rows : List RawRecord) (recs : List NormalizedRecord),
        processFile rows = some (some recs) →
        List.Forall₂ (fun (r : RawRecord) (n : NormalizedRecord) =>
          ∃ p, parsePrice r.price = some p
            ∧ n = ⟨p * (r.quantity : ℚ), r.date, r.region⟩) (rows.filter keepRow) recs)
    ∧ processFile [⟨"Pink Morsel", "$3.00", 100, dateKey 2021 1 10, "north"⟩]
        = some (some [⟨300, dateKey 2021 1 10, "north"⟩]) := by
  refine ⟨?_, ?_, ?_⟩
  · intro r
    simp [keepRow]
  · intro rows recs h
    cases he : (rows.filter keepRow).isEmpty with
    | true => simp [processFile, he] at h
    | false =>
      simp only [processFile, he, Bool.false_eq_true, if_false] at h
      cases hp : parseAll (rows.filter keepRow) with
      | none => rw [hp] at h; cases h
      | some recs' =>
        rw [hp] at h
        injection h with h'
        injection h' with h''
        subst h''
        exact parseAll_forall2 _ _ hp
  · with_unfolding_all rfl

/-- C7 witness: a two-row file (one matching, one not) processes to exactly
the normalized image of its retained row. -/
theorem c7_filter_normalize_witness :
    processFile [⟨"Pink Morsel", "$3.00", 100, dateKey 2021 1 10, "north"⟩,
                 ⟨"Gold Morsel", "$9.00", 5, dateKey 2021 1 11, "south"⟩]
      = some (some [⟨300, dateKey 2021 1 10, "north"⟩])
    ∧ List.Forall₂ (fun (r : RawRecord) (n : NormalizedRecord) =>
        ∃ p, parsePrice r.price = some p
          ∧ n = ⟨p * (r.quantity : ℚ), r.date, r.region⟩)
      ([(⟨"Pink Morsel", "$3.00", 100, dateKey 2021 1 10, "north"⟩ : RawRecord),
        ⟨"Gold Morsel", "$9.00", 5, dateKey 2021 1 11, "south"⟩].filter keepRow)
      [⟨300, dateKey 2021 1 10, "north"⟩] := by
  have h : processFile [⟨"Pink Morsel", "$3.00", 100, dateKey 2021 1 10, "north"⟩,
      ⟨"Gold Morsel", "$9.00", 5, dateKey 2021 1 11, "south"⟩]
      = some (some [⟨300, dateKey 2021 1 10, "north"⟩]) := by
    with_unfolding_all rfl
  exact ⟨h, c7_filter_normalize.2.1 _ _ h⟩

/-- C8: for a filter value other than "all", only records whose region is
exactly (case-sensitively) the filter value are retained, and a value
matching no record yields an empty DailySalesPoint sequence and the stats
`⟨0, 0, 0⟩` computed through the empty-partition branches — no error. -/
theorem c8_region_filter (recs : List NormalizedRecord) (region : String)
    (hall : region ≠ "all") :
    (∀ r ∈ filterRegion region recs, r.region = region)
    ∧ ((∀ r ∈ recs, r.region ≠ region) →
        filterRegion region recs = []
        ∧ daily_sales (filterRegion region recs) = []
        ∧ update_chart_stats region recs = ⟨0, 0, 0⟩) := by
  have hfil : filterRegion region recs = recs.filter (fun r => r.region = region) := by
    simp [filterRegion, hall]
  constructor
  · intro r hr
    rw [hfil, List.mem_filter] at hr
    simpa using hr.2
  · intro hnone
    have hempty : filterRegion region recs = [] := by
      rw [hfil]
      rw [List.filter_eq_nil_iff]
      intro r hr
      simpa using hnone r hr
    refine ⟨hempty, ?_, ?_⟩
    · rw [hempty]
      rfl
    · simp [update_chart_stats, hempty, before_avg, after_avg, sales_change,
        before_data, after_data]

/-- C8 witness: the region filter "west" matches no record of a
north-only dataset and the stats come out `⟨0, 0, 0⟩` without error. -/
theorem c8_region_filter_witness :
    (("west" : String) ≠ "all")
    ∧ (∀ r ∈ [(⟨300, dateKey 2021 1 10, "north"⟩ : NormalizedRecord)], r.region ≠ "west")
    ∧ update_chart_stats "west" [⟨300, dateKey 2021 1 10, "north"⟩] = ⟨0, 0, 0⟩ := by
  refine ⟨by decide, by decide, ?_⟩
  exact ((c8_region_filter [⟨300, dateKey 2021 1 10, "north"⟩] "west" (by decide)).2
    (by decide)).2.2

/-- C10: a source file with zero matching rows contributes nothing (the run's
result is unchanged if skipped files are removed), and when every file has
zero matching rows the run returns the distinguished empty result (`None`)
and writes no output file. -/
theorem c10_skip_and_none (files : List (List RawRecord)) :
    process_sales_data files
      = process_sales_data (files.filter (fun f => !(f.filter keepRow).isEmpty))
    ∧ ((∀ f ∈ files, f.filter keepRow = []) → process_sales_data files = some none) := by
  refine ⟨process_sales_data_filter files, ?_⟩
  intro hall
  rw [process_sales_data_filter files]
  have hnil : files.filter (fun f => !(f.filter keepRow).isEmpty) = [] := by
    rw [List.filter_eq_nil_iff]
    intro f hf
    simp [hall f hf]
  rw [hnil]
  rfl

/-- C10 witness: a single source holding only a non-matching row yields
`None` (no output written). -/
theorem c10_skip_and_none_witness :
    (∀ f ∈ [[(⟨"gold morsel", "$9.00", 5, dateKey 2021 1 10, "north"⟩ : RawRecord)]],
        f.filter keepRow = [])
    ∧ process_sales_data
        [[(⟨"gold morsel", "$9.00", 5, dateKey 2021 1 10, "north"⟩ : RawRecord)]]
      = some none := by
  have h : ∀ f ∈ [[(⟨"gold morsel", "$9.00", 5, dateKey 2021 1 10, "north"⟩ : RawRecord)]],
      f.filter keepRow = [] := by
    with_unfolding_all decide
  exact ⟨h, (c10_skip_and_none _).2 h⟩

/-- C1 counterexample: a dataset whose before-partition is nonempty with mean
exactly 0 (a zero-quantity pink-morsel row produces such a record).  The spec
demands a surfaced DivisionByZeroError; `update_chart` instead silently
returns 0 for the percent change. -/
theorem c1_counterexample :
    before_avg [⟨0, dateKey 2021 1 10, "north"⟩, ⟨10, dateKey 2021 1 20, "north"⟩] = 0
    ∧ after_avg [⟨0, dateKey 2021 1 10, "north"⟩, ⟨10, dateKey 2021 1 20, "north"⟩] = 10
    ∧ specPercentChange 0 10 = none
    ∧ sales_change [⟨0, dateKey 2021 1 10, "north"⟩, ⟨10, dateKey 2021 1 20, "north"⟩] = 0
    ∧ processFile [⟨"pink morsel", "$3.00", 0, dateKey 2021 1 10, "north"⟩]
        = some (some [⟨0, dateKey 2021 1 10, "north"⟩]) := by
  refine ⟨?_, ?_, ?_, ?_, ?_⟩ <;> with_unfolding_all rfl

/-- C1 (amended): when `beforeMean > 0` the percent change is
`(afterMean - beforeMean) / beforeMean * 100`; when `beforeMean == 0` the
computation does not fail — `update_chart` silently returns 0. -/
theorem c1_amended (recs : List NormalizedRecord) :
    (0 < before_avg recs →
      sales_change recs
        = (after_avg recs - before_avg recs) / before_avg recs * 100)
    ∧ (before_avg recs = 0 → sales_change recs = 0) := by
  constructor
  · intro h
    simp [sales_change, h]
  · intro h
    simp [sales_change, h]

/-- C1 witness: Scenario C data (`beforeMean = 100`, `afterMean = 150`) takes
the guarded formula branch. -/
theorem c1_amended_witness :
    0 < before_avg [⟨100, dateKey 2021 1 10, "north"⟩, ⟨150, dateKey 2021 1 20, "north"⟩]
    ∧ sales_change [⟨100, dateKey 2021 1 10, "north"⟩, ⟨150, dateKey 2021 1 20, "north"⟩]
        = (after_avg [⟨100, dateKey 2021 1 10, "north"⟩, ⟨150, dateKey 2021 1 20, "north"⟩]
            - before_avg [⟨100, dateKey 2021 1 10, "north"⟩,
                ⟨150, dateKey 2021 1 20, "north"⟩])
          / before_avg [⟨100, dateKey 2021 1 10, "north"⟩, ⟨150, dateKey 2021 1 20, "north"⟩]
          * 100 := by
  have h : 0 < before_avg [⟨100, dateKey 2021 1 10, "north"⟩,
      ⟨150, dateKey 2021 1 20, "north"⟩] := by
    with_unfolding_all decide
  exact ⟨h, (c1_amended _).1 h⟩

/-- C2 counterexample: with two records on one before-day (100 and 200) and
one after-day record, `update_chart` computes a before-mean of 150 — the mean
over individual normalized records — while the mean over aggregated daily
points (as the claim states, and as create_sales_visualization computes) is
300. -/
theorem c2_counterexample :
    before_avg [⟨100, dateKey 2021 1 10, "north"⟩, ⟨200, dateKey 2021 1 10, "north"⟩,
        ⟨300, dateKey 2021 1 20, "north"⟩] = 150
    ∧ specBeforeMean (daily_sales [⟨100, dateKey 2021 1 10, "north"⟩,
        ⟨200, dateKey 2021 1 10, "north"⟩, ⟨300, dateKey 2021 1 20, "north"⟩]) = 300
    ∧ viz_before_mean [⟨100, dateKey 2021 1 10, "north"⟩, ⟨200, dateKey 2021 1 10, "north"⟩,
        ⟨300, dateKey 2021 1 20, "north"⟩] = 300
    ∧ (150 : ℚ) ≠ 300 := by
  refine ⟨?_, ?_, ?_, ?_⟩
  · with_unfolding_all rfl
  · with_unfolding_all rfl
  · with_unfolding_all rfl
  · norm_num

/-- C2 (amended): create_sales_visualization's means are exactly the spec's
means over aggregated daily points, while `update_chart`'s means are the
means of `sales` over the individual normalized records of each partition. -/
theorem c2_amended (recs : List NormalizedRecord) :
    viz_before_mean recs = specBeforeMean (daily_sales recs)
    ∧ viz_after_mean recs = specAfterMean (daily_sales recs)
    ∧ (0 < (before_data recs).length →
        before_avg recs = mean ((before_data recs).map (fun r => r.sales)))
    ∧ (0 < (after_data recs).length →
        after_avg recs = mean ((after_data recs).map (fun r => r.sales))) := by
  refine ⟨rfl, rfl, ?_, ?_⟩
  · intro h
    simp [before_avg, h]
  · intro h
    simp [after_avg, h]

/-- C2 witness: on a dataset with one record on each side of the cutover,
the record-level before-mean branch is taken. -/
theorem c2_amended_witness :
    0 < (before_data [⟨100, dateKey 2021 1 10, "north"⟩,
        ⟨300, dateKey 2021 1 20, "north"⟩]).length
    ∧ before_avg [⟨100, dateKey 2021 1 10, "north"⟩, ⟨300, dateKey 2021 1 20, "north"⟩]
        = mean ((before_data [⟨100, dateKey 2021 1 10, "north"⟩,
            ⟨300, dateKey 2021 1 20, "north"⟩]).map (fun r => r.sales)) := by
  have h : 0 < (before_data [⟨100, dateKey 2021 1 10, "north"⟩,
      ⟨300, dateKey 2021 1 20, "north"⟩]).length := by
    with_unfolding_all decide
  exact ⟨h, (c2_amended _).2.2.1 h⟩

/-- C3 counterexample: the code parses `"3$"` successfully (it removes the
non-leading `'$'`), where the claim requires failure; and it accepts the
negative price `"$-2.00"`, which the claim's non-negative parse rejects. -/
theorem c3_counterexample :
    parsePrice "3$" = some 3
    ∧ specParsePrice "3$" = none
    ∧ parsePrice "$-2.00" = some (-2)
    ∧ specParsePrice "$-2.00" = none := by
  refine ⟨?_, ?_, ?_, ?_⟩ <;> with_unfolding_all rfl

/-- C3 (amended): price parsing removes every `'$'` wherever it occurs
(parsing is invariant under inserting a `'$'` anywhere), and on a
dollar-free string it is exactly the float conversion of the string, sign
permitted; an invalid remainder aborts the run unclassified (`none`). -/
theorem c3_amended :
    (∀ a b : String, parsePrice (a ++ "$" ++ b) = parsePrice (a ++ b))
    ∧ (∀ s : String, '$' ∉ s.data → parsePrice s = pyFloat s.data) := by
  have hdata : ∀ a b : String, (a ++ b).data = a.data ++ b.data := by
    intro a b
    cases a
    cases b
    rfl
  constructor
  · intro a b
    show pyFloat (((a ++ "$" ++ b).data).filter (fun c => c ≠ '$'))
        = pyFloat (((a ++ b).data).filter (fun c => c ≠ '$'))
    rw [hdata (a ++ "$") b, hdata a "$", hdata a b]
    simp [List.filter_append]
  · intro s hs
    show pyFloat ((s.data).filter (fun c => c ≠ '$')) = pyFloat s.data
    rw [List.filter_eq_self.mpr]
    intro c hc
    have hne : c ≠ '$' := fun hceq => hs (hceq ▸ hc)
    simp [hne]

/-- C3 witness: on the dollar-free remainder `"3.00"` the parse is the plain
float conversion. -/
theorem c3_amended_witness :
    ('$' ∉ ("3.00" : String).data)
    ∧ parsePrice "3.00" = pyFloat ("3.00" : String).data := by
  have h : '$' ∉ ("3.00" : String).data := by decide
  exact ⟨h, c3_amended.2 "3.00" h⟩

/-- C9 counterexample: a negative observed price is reachable (the parser
accepts `"-2.0"`), and the distinct prices `[-2, 1]` produce the event
`⟨-2, 1, -150⟩` whose percentIncrease is negative — refuting "always
non-negative". -/
theorem c9_counterexample :
    parsePrice "-2.0" = some (-2)
    ∧ analyzePrices [(-2 : ℚ), 1] = .increases [⟨-2, 1, -150⟩]
    ∧ (⟨-2, 1, -150⟩ : PriceChangeEvent).percentIncrease < 0 := by
  refine ⟨?_, ?_, ?_⟩
  · with_unfolding_all rfl
  · with_unfolding_all rfl
  · show (-150 : ℚ) < 0
    norm_num

/-- C9 (amended): each adjacent pair of the ascending distinct-price list
yields `percentIncrease = (next - prev) / prev * 100`, non-negative whenever
all observed prices are positive; a single distinct price reports "no price
change detected"; and the distinct prices `[3, 5]` yield one event of
`200/3 ≈ 66.67` within `±0.01`. -/
theorem c9_amended (prices : List ℚ) :
    (∀ ev ∈ adjacentEvents (sortedDedup prices),
        ev.percentIncrease = (ev.toPrice - ev.fromPrice) / ev.fromPrice * 100)
    ∧ ((∀ p ∈ prices, 0 < p) →
        ∀ ev ∈ adjacentEvents (sortedDedup prices), 0 ≤ ev.percentIncrease)
    ∧ (∀ p : ℚ, sortedDedup prices = [p] → analyzePrices prices = .noChange p)
    ∧ analyzePrices [(3 : ℚ), 5] = .increases [⟨3, 5, 200 / 3⟩]
    ∧ |(200 / 3 : ℚ) - 6667 / 100| ≤ 1 / 100 := by
  refine ⟨?_, ?_, ?_, ?_, ?_⟩
  · intro ev hev
    exact (adjacentEvents_spec _ ev hev).1
  · intro hpos ev hev
    refine (adjacentEvents_spec _ ev hev).2 (pairwise_sortedDedup _) ?_
    intro p hp
    exact hpos p ((mem_sortedDedup p prices).mp hp)
  · intro p hp
    simp [analyzePrices, hp]
  · with_unfolding_all rfl
  · rw [abs_le]
    constructor <;> norm_num

/-- C9 witness: the all-positive price column `[3, 5, 3]` (whose distinct
sorted prices are `[3, 5]`) has its single event non-negative, and a constant
price column reports no change. -/
theorem c9_amended_witness :
    (∀ p ∈ [(3 : ℚ), 5, 3], 0 < p)
    ∧ 0 ≤ (⟨3, 5, 200 / 3⟩ : PriceChangeEvent).percentIncrease
    ∧ sortedDedup [(7 : ℚ), 7] = [7]
    ∧ analyzePrices [(7 : ℚ), 7] = .noChange 7 := by
  have hpos : ∀ p ∈ [(3 : ℚ), 5, 3], 0 < p := by
    intro p hp
    rcases List.mem_cons.mp hp with rfl | hp
    · norm_num
    rcases List.mem_cons.mp hp with rfl | hp
    · norm_num
    rcases List.mem_cons.mp hp with rfl | hp
    · norm_num
    · cases hp
  have hmem : (⟨3, 5, 200 / 3⟩ : PriceChangeEvent)
      ∈ adjacentEvents (sortedDedup [(3 : ℚ), 5, 3]) := by
    have he : adjacentEvents (sortedDedup [(3 : ℚ), 5, 3]) = [⟨3, 5, 200 / 3⟩] := by
      with_unfolding_all rfl
    rw [he]
    exact List.mem_singleton_self _
  have hone : sortedDedup [(7 : ℚ), 7] = [7] := by
    with_unfolding_all rfl
  exact ⟨hpos, (c9_amended [(3 : ℚ), 5, 3]).2.1 hpos _ hmem,
    hone, (c9_amended [(7 : ℚ), 7]).2.2.1 7 hone⟩
